import Mathlib

/-!
Verification development for the token-saver repository.

The Python sources are shallowly embedded over `List Char`: a Python `str`
is a list of characters, `str.splitlines()` is `splitlines`, `"\n".join`
is `joinNL`, and every regular expression used by the code is unfolded
into an explicit, executable character-level scanner that mirrors the
regex engine's behaviour on the pattern in question.  Fallible Python
code (code that can raise) is embedded as a function into `Option`.
-/

namespace TokenSaver

/-- Python's whitespace class (`str.strip`, `str.isspace`, regex `\s`):
the ASCII whitespace, the C0 separators, NEL, and the Unicode space
characters (categories Zs, Zl, Zp). -/
def pySpace (c : Char) : Bool :=
  c = ' ' || c = '\t' || c = '\n' || c = '\r' || c = '\x0b' || c = '\x0c' ||
  c = '\x1c' || c = '\x1d' || c = '\x1e' || c = '\x1f' || c = '\x85' || c = '\xa0' ||
  c = '\u1680' || (0x2000 ≤ c.toNat && c.toNat ≤ 0x200a) || c = '\u2028' ||
  c = '\u2029' || c = '\u202f' || c = '\u205f' || c = '\u3000'

/-- Python `str.lstrip()`. -/
def lstripL (cs : List Char) : List Char := cs.dropWhile pySpace

/-- Python `str.rstrip()`. -/
def rstripL (cs : List Char) : List Char := (cs.reverse.dropWhile pySpace).reverse

/-- Python `str.strip()`. -/
def stripL (cs : List Char) : List Char := lstripL (rstripL cs)

/-- A line is blank when its `strip()` is empty (Python truthiness of `line.strip()`). -/
def isBlankL (cs : List Char) : Bool := (stripL cs).isEmpty

/-- The individual line-break characters of Python's `str.splitlines()`:
LF, CR, VT, FF, FS, GS, RS, NEL and the Unicode line/paragraph separators
(the CRLF pair is handled as a single break in `splitAux`). -/
def isLineBreak (c : Char) : Bool :=
  c = '\n' || c = '\r' || c = '\x0b' || c = '\x0c' || c = '\x1c' || c = '\x1d' ||
  c = '\x1e' || c = '\x85' || c = '\u2028' || c = '\u2029'

/-- Helper for `splitlines`: scan characters, `acc` holds the current line
reversed; a CR immediately followed by LF counts as one break. -/
def splitAux : List Char → List Char → List (List Char)
  | [], acc => [acc.reverse]
  | c :: rest, acc =>
    if isLineBreak c then
      match rest with
      | [] => [acc.reverse]
      | d :: r2 =>
        if c = '\r' ∧ d = '\n' then
          (match r2 with
           | [] => [acc.reverse]
           | _ :: _ => acc.reverse :: splitAux r2 [])
        else acc.reverse :: splitAux (d :: r2) []
    else splitAux rest (c :: acc)

/-- Python `str.splitlines()`: the empty string gives no lines, and a
trailing line break does not produce a trailing empty line. -/
def splitlines : List Char → List (List Char)
  | [] => []
  | c :: rest => splitAux (c :: rest) []

/-- Python `"\n".join(lines)`. -/
def joinNL : List (List Char) → List Char
  | [] => []
  | [x] => x
  | x :: y :: rest => x ++ '\n' :: joinNL (y :: rest)

/-- Decimal digits of a natural number, as Python's `f"{n}"` renders it. -/
def natChars (n : Nat) : List Char := Nat.toDigits 10 n

/-- Decimal rendering of an integer, as Python's `f"{n}"` renders it. -/
def intChars (n : Int) : List Char :=
  if n < 0 then '-' :: natChars n.natAbs else natChars n.natAbs

/-- Substring test: does `pat` occur contiguously inside `s`?  This is the
embedding of Python's `pat in s`. -/
def containsSeq (pat : List Char) : List Char → Bool
  | [] => pat.isEmpty
  | c :: rest => pat.isPrefixOf (c :: rest) || containsSeq pat rest

/-- A regex word character (`\w`), ASCII part: letters, digits, underscore. -/
def wordCh (c : Char) : Bool := c.isAlphanum || c = '_'

/-- Does the word `w` start exactly here, with a word boundary after it?
(`w` itself consists of word characters in all uses.) -/
def wordAt (w s : List Char) : Bool :=
  w.isPrefixOf s &&
    (match s.drop w.length with
     | c :: _ => !wordCh c
     | [] => true)

/-- Scanner for `re.search(r"\bw\b", s)`: `prev` is the character before
the current position (`none` at the start of the string). -/
def wordSearchGo (w : List Char) : Option Char → List Char → Bool
  | _, [] => false
  | prev, c :: rest =>
    ((match prev with
      | none => true
      | some p => !wordCh p) && wordAt w (c :: rest)) || wordSearchGo w (some c) rest

/-- Embedding of `re.search(r"\bw\b", s)` for a word `w` of word characters. -/
def wordSearch (w s : List Char) : Bool := wordSearchGo w none s

/-- Consume `[0-9;]*[a-zA-Z]` (the tail of a CSI escape): returns the suffix
after the final letter, or `none` when the pattern does not match here. -/
def ansiParams : List Char → Option (List Char)
  | [] => none
  | c :: rest =>
    if c.isDigit || c = ';' then ansiParams rest
    else if c.isAlpha then some rest else none

/-- Consume `.*?\x07` (the non-greedy tail of an OSC escape): returns the
suffix after the first BEL character, or `none` when there is none. -/
def oscEnd : List Char → Option (List Char)
  | [] => none
  | c :: rest => if c = '\x07' then some rest else oscEnd rest

/-- One attempted match of `ANSI_RE = \x1b\[[0-9;]*[a-zA-Z]|\x1b\].*?\x07`
at the current position: returns the suffix after the match, if any. -/
def ansiMatch : List Char → Option (List Char)
  | c :: d :: rest =>
    if c = '\x1b' then
      if d = '[' then ansiParams rest
      else if d = ']' then oscEnd rest
      else none
    else none
  | _ => none

/-- Fuel-indexed scanner for `ANSI_RE.sub("", line)`: every step consumes at
least one input character (a regex match consumes at least two), so
`fuel = length of the input` always suffices and the out-of-fuel branch is
never reached on the intended call. -/
def ansiStripFuel : Nat → List Char → List Char
  | 0, cs => cs
  | _, [] => []
  | fuel + 1, c :: rest =>
    match ansiMatch (c :: rest) with
    | some r => ansiStripFuel fuel r
    | none => c :: ansiStripFuel fuel rest

/-- Embedding of `ANSI_RE.sub("", line)`: scan the line, deleting every
non-overlapping match of the escape-sequence regex, left to right. -/
def ansiStrip (cs : List Char) : List Char := ansiStripFuel cs.length cs

namespace GenericProcessor

/-- `GenericProcessor._strip_ansi`. -/
def strip_ansi (lines : List (List Char)) : List (List Char) := lines.map TokenSaver.ansiStrip

/-- `GenericProcessor._strip_trailing_whitespace`. -/
def strip_trailing_whitespace (lines : List (List Char)) : List (List Char) :=
  lines.map TokenSaver.rstripL

/-- The character class of `_PROGRESS_BAR_RE = [━█▓░▒■□●○#=\->]{5,}`. -/
def barChar (c : Char) : Bool :=
  c = '━' || c = '█' || c = '▓' || c = '░' || c = '▒' || c = '■' || c = '□' ||
  c = '●' || c = '○' || c = '#' || c = '=' || c = '-' || c = '>'

/-- Scanner for `_PROGRESS_BAR_RE.search`: length of the first maximal run
of at least 5 bar characters, if any (`run` is the length of the current run). -/
def firstBarRun : Nat → List Char → Option Nat
  | run, [] => if run ≥ 5 then some run else none
  | run, c :: rest =>
    if barChar c then firstBarRun (run + 1) rest
    else if run ≥ 5 then some run else firstBarRun 0 rest

/-- The spinner frames listed in `_strip_progress_bars`. -/
def spinnerFrames : List (List Char) :=
  [("⠋").data, ("⠙").data, ("⠹").data, ("⠸").data, ("⠼").data, ("⠴").data,
   ("⠦").data, ("⠧").data, ("⠇").data, ("⠏").data, ("⣾").data, ("⣽").data,
   ("⣻").data, ("⢿").data, ("⡿").data, ("⣟").data, ("⣯").data, ("⣷").data]

/-- Decision made by `_strip_progress_bars` for one line: `true` drops it.
A line is dropped when its first run of 5+ bar glyphs covers more than
half of its stripped length, or when it is a single spinner frame. -/
def dropsLine (line : List Char) : Bool :=
  let s := TokenSaver.stripL line
  (!s.isEmpty &&
    (match firstBarRun 0 s with
     | some k => 2 * k > s.length
     | none => false)) || spinnerFrames.contains s

/-- `GenericProcessor._strip_progress_bars`. -/
def strip_progress_bars (lines : List (List Char)) : List (List Char) :=
  lines.filter (fun l => !dropsLine l)

/-- Helper for `_collapse_blank_lines`: `prevBlank` tracks whether the
previously kept line was blank. -/
def collapseBlankGo : Bool → List (List Char) → List (List Char)
  | _, [] => []
  | prevBlank, l :: ls =>
    if TokenSaver.isBlankL l && prevBlank then collapseBlankGo prevBlank ls
    else l :: collapseBlankGo (TokenSaver.isBlankL l) ls

/-- `GenericProcessor._collapse_blank_lines`: merge consecutive blank lines. -/
def collapse_blank_lines (lines : List (List Char)) : List (List Char) :=
  collapseBlankGo false lines

/-- `GenericProcessor._flush`: emit one run of identical lines. -/
def flushRep (line : List Char) (count : Nat) : List (List Char) :=
  if count > 1 then [line ++ (" (x").data ++ TokenSaver.natChars count ++ (")").data]
  else [line]

/-- Loop of `_collapse_repeated_lines` over the remaining lines, carrying
the current line and its run count. -/
def collapseRepGo (current : List Char) (count : Nat) : List (List Char) → List (List Char)
  | [] => flushRep current count
  | l :: ls =>
    if l = current ∧ TokenSaver.isBlankL current = false then collapseRepGo current (count + 1) ls
    else flushRep current count ++ collapseRepGo l 1 ls

/-- `GenericProcessor._collapse_repeated_lines`. -/
def collapse_repeated_lines : List (List Char) → List (List Char)
  | [] => []
  | x :: xs => collapseRepGo x 1 xs

/-- Drop a maximal digit run (`\d+` greedy). -/
def dropDigits (cs : List Char) : List Char := cs.dropWhile Char.isDigit

/-- After consuming the first digit of `\d+(\.\d+)?`, drop the rest of the
numeric token: the remaining digits and an optional fraction part. -/
def dropNum (rest : List Char) : List Char :=
  match h : dropDigits rest with
  | '.' :: d :: r2 => if d.isDigit then dropDigits r2 else dropDigits rest
  | _ => dropDigits rest

/-- Fuel-indexed scanner for `_NUMERIC_RE.sub("N", s)`: every step consumes
at least one input character (`dropNum` only shortens the rest), so
`fuel = length of the input` always suffices and the out-of-fuel branch is
never reached on the intended call. -/
def normNumsFuel : Nat → List Char → List Char
  | 0, cs => cs
  | _, [] => []
  | fuel + 1, c :: rest =>
    if c.isDigit then 'N' :: normNumsFuel fuel (dropNum rest)
    else c :: normNumsFuel fuel rest

/-- Embedding of `_NUMERIC_RE.sub("N", s)` for `_NUMERIC_RE = \d+(\.\d+)?`:
replace each maximal numeric token by the placeholder character. -/
def normNums (cs : List Char) : List Char := normNumsFuel cs.length cs

/-- `GenericProcessor._normalize_numbers`. -/
def normalize_numbers (line : List Char) : List Char := normNums (TokenSaver.stripL line)

/-- Count of decimal digits in a character list. -/
def digitCount (cs : List Char) : Nat := (cs.filter Char.isDigit).length

/-- Does `\d+(\.\d+)?%` match starting at a digit whose following characters
are `rest`?  Both the with-fraction and without-fraction alternatives of
the optional group are tried, as regex backtracking would. -/
def pctAt (rest : List Char) : Bool :=
  (dropDigits rest).head? = some '%' ||
  (match dropDigits rest with
   | '.' :: d :: r2 => d.isDigit && ((dropDigits r2).head? = some '%')
   | _ => false)

/-- Scanner for `re.search(r"\d+(\.\d+)?%", s)`. -/
def pctSearch : List Char → Bool
  | [] => false
  | c :: rest => (c.isDigit && pctAt rest) || pctSearch rest

/-- The transfer-rate unit alternatives of the regex in `_is_numeric_heavy`,
each already joined with the mandatory `/s` suffix. -/
def rateUnits : List (List Char) :=
  [("KB/s").data, ("MB/s").data, ("GB/s").data, ("B/s").data, ("kB/s").data,
   ("MiB/s").data, ("GiB/s").data, ("k/s").data, ("M/s").data, ("G/s").data]

/-- Does some transfer-rate unit (followed by `/s`) start here after
optional whitespace (`\s*`)? -/
def unitHere (r : List Char) : Bool :=
  rateUnits.any (fun u => u.isPrefixOf (r.dropWhile TokenSaver.pySpace))

/-- Does `\d+(\.\d+)?\s*(KB|MB|GB|B|kB|MiB|GiB|k|M|G)/s` match starting at a
digit whose following characters are `rest`? -/
def rateAt (rest : List Char) : Bool :=
  unitHere (dropDigits rest) ||
  (match dropDigits rest with
   | '.' :: d :: r2 => d.isDigit && unitHere (dropDigits r2)
   | _ => false)

/-- Scanner for the transfer-rate regex search in `_is_numeric_heavy`. -/
def rateSearch : List Char → Bool
  | [] => false
  | c :: rest => (c.isDigit && rateAt rest) || rateSearch rest

/-- Does `\s+\d` match at the beginning of `r` (used after `ETA`/`eta`)? -/
def wsThenDigit (r : List Char) : Bool :=
  match r with
  | c :: _ =>
    TokenSaver.pySpace c &&
      (match r.dropWhile TokenSaver.pySpace with
       | d :: _ => d.isDigit
       | [] => false)
  | [] => false

/-- Scanner for `re.search(r"(ETA|eta)\s+\d+", s)`. -/
def etaSearch : List Char → Bool
  | [] => false
  | c :: rest =>
    ((("ETA").data.isPrefixOf (c :: rest) || ("eta").data.isPrefixOf (c :: rest)) &&
      wsThenDigit ((c :: rest).drop 3)) || etaSearch rest

/-- Consume `\d+:` from the current position: requires a leading digit run
followed by a colon, and returns the suffix after the colon. -/
def colonRun (cs : List Char) : Option (List Char) :=
  match cs with
  | c :: rest =>
    if c.isDigit then
      match dropDigits rest with
      | ':' :: r2 => some r2
      | _ => none
    else none
  | [] => none

/-- Does `(\d+:){2}\d+` match at the current position? -/
def hmsHere (cs : List Char) : Bool :=
  match colonRun cs with
  | some r1 =>
    (match colonRun r1 with
     | some r2 =>
       (match r2 with
        | d :: _ => d.isDigit
        | [] => false)
     | none => false)
  | none => false

/-- Scanner for `re.search(r"--:--:--|(\d+:){2}\d+", s)`. -/
def timeSearch : List Char → Bool
  | [] => false
  | c :: rest =>
    ("--:--:--").data.isPrefixOf (c :: rest) || hmsHere (c :: rest) || timeSearch rest

/-- `GenericProcessor._is_numeric_heavy`, with the float thresholds 0.25,
0.5 and 0.40 of the source replaced by the exact rational comparisons
`4*digits ≥ len`, and `5*digits ≥ 2*len`. -/
def is_numeric_heavy (line : List Char) : Bool :=
  let s := TokenSaver.stripL line
  if s.isEmpty then false
  else if 4 * digitCount s ≥ s.length then true
  else if pctSearch s then true
  else if rateSearch s then true
  else if etaSearch s then true
  else if timeSearch s && digitCount s ≥ 5 then true
  else
    let nws := s.filter (fun c => c ≠ ' ')
    !nws.isEmpty && 5 * digitCount nws ≥ 2 * nws.length

/-- `GenericProcessor._flush_similar`: a group of 5+ similar lines becomes
first line, elision marker, last line; smaller groups pass unchanged. -/
def flush_similar (group : List (List Char)) : List (List Char) :=
  if group.length ≥ 5 then
    [group.headD [],
     ("  ... (").data ++ TokenSaver.natChars (group.length - 2) ++ (" similar lines)").data,
     group.getLastD []]
  else group

/-- Loop of `_collapse_similar_lines`: `current` is the first line of the
open group (the source never reassigns it while the group grows),
`curNorm` its normalized form, `group` the group collected so far. -/
def collapseSimGo (current curNorm : List Char) (group : List (List Char)) :
    List (List Char) → List (List Char)
  | [] => flush_similar group
  | l :: ls =>
    if normalize_numbers l = curNorm ∧ TokenSaver.isBlankL current = false ∧
        (TokenSaver.stripL current).length > 10 ∧ is_numeric_heavy current = true then
      collapseSimGo current curNorm (group ++ [l]) ls
    else flush_similar group ++ collapseSimGo l (normalize_numbers l) [l] ls

/-- `GenericProcessor._collapse_similar_lines`. -/
def collapse_similar_lines : List (List Char) → List (List Char)
  | [] => []
  | x :: xs => collapseSimGo x (normalize_numbers x) [x] xs

/-- Modelled from the spec: the configuration surface of §6 for the keys
`generic_truncate_threshold`, `generic_keep_head` and `generic_keep_tail`
read by `GenericProcessor` — the `config` module itself is not among the
repository's source files, so the three values are carried abstractly. -/
structure Config where
  generic_truncate_threshold : Nat
  generic_keep_head : Nat
  generic_keep_tail : Nat

/-- Python's `lines[-k:]`: for `k = 0` this is the whole list. -/
def pyTail (k : Nat) (l : List (List Char)) : List (List Char) :=
  if k = 0 then l else l.drop (l.length - k)

/-- The marker line inserted by `_truncate_middle` (note the embedded
newlines of the f-string in the source). -/
def truncMarker (removed : Int) (total : Nat) : List Char :=
  '\n' :: (("... (").data ++ TokenSaver.intChars removed ++ (" lines truncated, ").data ++
    TokenSaver.natChars total ++ (" total) ...").data) ++ [ '\n' ]

/-- `GenericProcessor._truncate_middle`. -/
def truncate_middle (cfg : Config) (lines : List (List Char)) : List (List Char) :=
  lines.take cfg.generic_keep_head ++
    [truncMarker ((lines.length : Int) - cfg.generic_keep_head - cfg.generic_keep_tail)
      lines.length] ++
    pyTail cfg.generic_keep_tail lines

/-- Stages 1–6 of `GenericProcessor.process` (everything before the
threshold-guarded middle truncation). -/
def stageLines (output : List Char) : List (List Char) :=
  strip_trailing_whitespace
    (collapse_similar_lines
      (collapse_repeated_lines
        (collapse_blank_lines
          (strip_progress_bars
            (strip_ansi (TokenSaver.splitlines output))))))

/-- `GenericProcessor.process` (the `command` argument is unused by the
source as well). -/
def process (cfg : Config) (command output : List Char) : List Char :=
  let lines := stageLines output
  if lines.length > cfg.generic_truncate_threshold then
    TokenSaver.joinNL (truncate_middle cfg lines)
  else TokenSaver.joinNL lines

/-- `GenericProcessor.clean`: the light pass — ANSI strip, blank-line
collapse, trailing-whitespace strip. -/
def clean (text : List Char) : List Char :=
  TokenSaver.joinNL
    (strip_trailing_whitespace
      (collapse_blank_lines
        (strip_ansi (TokenSaver.splitlines text))))

end GenericProcessor

namespace SearchProcessor

/-- Match of `re.match(r"^Binary file .* matches", stripped)`. -/
def binaryWarn (s : List Char) : Bool :=
  ("Binary file ").data.isPrefixOf s && containsSeq (" matches").data (s.drop 12)

/-- Group 1 of `re.match(r"^(.+?):(\d+:)?(.*)$", s)`: the non-greedy `(.+?)`
takes everything before the first colon that is preceded by at least one
character; when `s` has no such colon the regex does not match. -/
def firstColonGroup (s : List Char) : Option (List Char) :=
  match s with
  | [] => none
  | c :: rest =>
    if rest.contains ':' then some (c :: rest.takeWhile (fun d => d ≠ ':')) else none

/-- Append a match to the per-file bucket of `by_file`, preserving the
first-insertion order of keys (Python dicts iterate in insertion order). -/
def addFile (bf : List (List Char × List (List Char))) (k v : List Char) :
    List (List Char × List (List Char)) :=
  match bf with
  | [] => [(k, [v])]
  | (k0, vs) :: rest =>
    if k0 = k then (k0, vs ++ [v]) :: rest else (k0, vs) :: addFile rest k v

/-- The classification loop of `SearchProcessor.process`.  `none` embeds the
`AttributeError` the source raises when the line has no colon: in
`(m and "/" in m.group(1)) or "." in m.group(1)` the second disjunct
dereferences `m` even when `m is None`. -/
def classify : List (List Char) → List (List Char × List (List Char)) → List (List Char) →
    Option (List (List Char × List (List Char)) × List (List Char))
  | [], bf, plain => some (bf, plain)
  | l :: ls, bf, plain =>
    let s := stripL l
    if s.isEmpty then classify ls bf plain
    else if binaryWarn s then classify ls bf plain
    else
      match firstColonGroup s with
      | some g =>
        if g.contains '/' || g.contains '.' then classify ls (addFile bf g s) plain
        else classify ls bf (plain ++ [s])
      | none => none

/-- The per-file emission of `SearchProcessor.process`: more than 3 matches
give a header with the count, 3 samples (file prefix stripped and
indented), and an elision line; otherwise the raw matches. -/
def fileGroup (fp : List Char) (ms : List (List Char)) : List (List Char) :=
  if ms.length > 3 then
    (fp ++ (": (").data ++ natChars ms.length ++ (" matches)").data) ::
      (ms.take 3).map (fun m =>
        if (fp ++ [ ':' ]).isPrefixOf m then ' ' :: ' ' :: m.drop (fp.length + 1)
        else ' ' :: ' ' :: m) ++
      [("  ... (").data ++ natChars (ms.length - 3) ++ (" more)").data]
  else ms

/-- `SearchProcessor.process` (the `command` argument is unused by the body).
`none` embeds an uncaught exception. -/
def process (command output : List Char) : Option (List Char) :=
  if output.isEmpty || (stripL output).isEmpty then some output
  else
    let lines := splitlines output
    if lines.length < 20 then some output
    else
      match classify lines [] [] with
      | none => none
      | some (bf, plain) =>
        if bf.isEmpty && plain.isEmpty then some output
        else
          let total_matches := (bf.map (fun p => p.2.length)).sum + plain.length
          let total_files := bf.length
          if total_files = 0 then
            if plain.length > 30 then
              some (joinNL (plain.take 25 ++
                [("... (").data ++ natChars (plain.length - 25) ++ (" more matches)").data]))
            else some output
          else
            let sorted_files := List.insertionSort (fun a b => b.2.length ≤ a.2.length) bf
            let body := ((sorted_files.take 20).map (fun p => fileGroup p.1 p.2)).flatten
            let res := (natChars total_matches ++ (" matches across ").data ++
              natChars total_files ++ (" files:").data) :: body
            let res2 :=
              if total_files > 20 then
                res ++ [("... (").data ++ natChars (total_files - 20) ++ (" more files)").data]
              else res
            some (joinNL res2)

end SearchProcessor

namespace TerraformProcessor

/-- Prefix match of a literal word followed by at least one whitespace
character (regex `^word\s+`). -/
def wordThenWs (w s : List Char) : Bool :=
  w.isPrefixOf s &&
    (match s.drop w.length with
     | c :: _ => pySpace c
     | [] => false)

/-- Match of `^(Initializing|Acquiring|Installing|Reusing)\s+`. -/
def providerInit (s : List Char) : Bool :=
  wordThenWs ("Initializing").data s || wordThenWs ("Acquiring").data s ||
  wordThenWs ("Installing").data s || wordThenWs ("Reusing").data s

/-- Match of `^-\s+Installed\s+`. -/
def dashInstalled (s : List Char) : Bool :=
  match s with
  | '-' :: rest =>
    (match rest with
     | c :: _ => pySpace c
     | [] => false) && wordThenWs ("Installed").data (rest.dropWhile pySpace)
  | _ => false

/-- Match of `^(Initializing the backend|Successfully configured)`. -/
def backendInfo (s : List Char) : Bool :=
  ("Initializing the backend").data.isPrefixOf s ||
  ("Successfully configured").data.isPrefixOf s

/-- Match of `^#\s+\S+`. -/
def hashHeader (s : List Char) : Bool :=
  match s with
  | '#' :: rest =>
    (match rest with
     | c :: _ => pySpace c
     | [] => false) &&
      (match rest.dropWhile pySpace with
       | c :: _ => !pySpace c
       | [] => false)
  | _ => false

/-- Match of `^\s+#\s+\S+` (the source also tries this on the already
stripped line, where it can only fail; kept for fidelity). -/
def wsHashHeader (s : List Char) : Bool :=
  match s with
  | c :: _ => pySpace c && hashHeader (s.dropWhile pySpace)
  | [] => false

/-- Match of `^\s*[+~-]\s+resource\s+`. -/
def resourceBoundary (s : List Char) : Bool :=
  match s.dropWhile pySpace with
  | c :: rest =>
    (c = '+' || c = '~' || c = '-') &&
      (match rest with
       | d :: _ => pySpace d
       | [] => false) && wordThenWs ("resource").data (rest.dropWhile pySpace)
  | [] => false

/-- The changed-attribute test: `"->" in stripped` or `^\s*[~+-]`. -/
def changeMarked (s : List Char) : Bool :=
  containsSeq ("->").data s ||
    (match s.dropWhile pySpace with
     | c :: _ => c = '~' || c = '+' || c = '-'
     | [] => false)

/-- Substring test for `"(known after apply)"`. -/
def knownAfterApply (s : List Char) : Bool := containsSeq ("(known after apply)").data s

/-- Substring test for `"forces replacement"`. -/
def forcesReplacement (s : List Char) : Bool := containsSeq ("forces replacement").data s

/-- Match of `^\s*[+~-]\s+\w+\s*=` (an output-value diff line). -/
def outputValue (s : List Char) : Bool :=
  match s.dropWhile pySpace with
  | c :: rest =>
    (c = '+' || c = '~' || c = '-') &&
      (match rest with
       | d :: _ => pySpace d
       | [] => false) &&
      (match rest.dropWhile pySpace with
       | e :: _ =>
         wordCh e &&
           (((rest.dropWhile pySpace).dropWhile wordCh).dropWhile pySpace).head? = some '='
       | [] => false)
  | [] => false

/-- Search of `\b(Error|Warning|error|warning)\b`. -/
def warnErr (s : List Char) : Bool :=
  wordSearch ("Error").data s || wordSearch ("Warning").data s ||
  wordSearch ("error").data s || wordSearch ("warning").data s

/-- The `resource_action` a header line sets: `"+"`, `"-"`, `"~"` or `""`. -/
def actionOf (s : List Char) : List Char :=
  if containsSeq ("will be created").data s then [ '+' ]
  else if containsSeq ("will be destroyed").data s then [ '-' ]
  else if containsSeq ("will be updated").data s || containsSeq ("must be replaced").data s then
    [ '~' ]
  else []

/-- The line loop of `TerraformProcessor.process`: state is
(`in_resource_block`, `resource_action`, kept lines so far in reverse). -/
def tfGo : Bool → List Char → List (List Char) → List (List Char) → List (List Char)
  | _, _, resRev, [] => resRev.reverse
  | inBlock, action, resRev, line :: rest =>
    let s := stripL line
    if providerInit s then tfGo inBlock action resRev rest
    else if dashInstalled s then tfGo inBlock action resRev rest
    else if backendInfo s then tfGo inBlock action resRev rest
    else if hashHeader s || wsHashHeader s then tfGo true (actionOf s) (line :: resRev) rest
    else if inBlock && resourceBoundary s then tfGo inBlock action (line :: resRev) rest
    else if inBlock && s = [ '\x7d' ] then tfGo false action (line :: resRev) rest
    else if inBlock then
      (if changeMarked s then tfGo inBlock action (line :: resRev) rest
       else if knownAfterApply s then tfGo inBlock action (line :: resRev) rest
       else if forcesReplacement s then tfGo inBlock action (line :: resRev) rest
       else if action = [ '+' ] then tfGo inBlock action (line :: resRev) rest
       else tfGo inBlock action resRev rest)
    else if ("Plan:").data.isPrefixOf s then tfGo inBlock action (line :: resRev) rest
    else if ("Apply complete").data.isPrefixOf s || ("Destroy complete").data.isPrefixOf s ||
        ("No changes").data.isPrefixOf s then tfGo inBlock action (line :: resRev) rest
    else if ("Changes to Outputs:").data.isPrefixOf s then tfGo inBlock action (line :: resRev) rest
    else if outputValue s then tfGo inBlock action (line :: resRev) rest
    else if warnErr s then tfGo inBlock action (line :: resRev) rest
    else if ("Note:").data.isPrefixOf s then tfGo inBlock action (line :: resRev) rest
    else if s.isEmpty &&
        (match resRev with
         | r :: _ => !(stripL r).isEmpty
         | [] => false) then
      tfGo inBlock action (line :: resRev) rest
    else tfGo inBlock action resRev rest

/-- `TerraformProcessor.process` (the `command` argument is unused). -/
def process (command output : List Char) : List Char :=
  if output.isEmpty || (stripL output).isEmpty then output
  else
    let lines := splitlines output
    if lines.length ≤ 30 then output
    else
      let result := tfGo false [] [] lines
      if result.isEmpty then output else joinNL result

end TerraformProcessor

namespace NetworkProcessor

/-- `NetworkProcessor.can_handle`: `re.search(r"\b(curl|wget|http|https)\b", command)`. -/
def can_handle (command : List Char) : Bool :=
  wordSearch ("curl").data command || wordSearch ("wget").data command ||
  wordSearch ("http").data command || wordSearch ("https").data command

/-- `NetworkProcessor.process`, with the bodies of `_process_curl` and
`_process_wget` abstracted as the parameters `pc` and `pw` — the claims
about this processor only concern its dispatch, which holds for every
choice of the two sub-strategies. -/
def process (pc pw : List Char → List Char → List Char) (command output : List Char) :
    List Char :=
  if output.isEmpty || (stripL output).isEmpty then output
  else if wordSearch ("curl").data command then pc command output
  else if wordSearch ("wget").data command then pw command output
  else output

end NetworkProcessor

namespace SavingsTracker

/-- One row of the `sessions` table (the fields `record_saving` touches:
cumulative sizes and command count; timestamps are irrelevant to the
claims and omitted). -/
structure SessionRow where
  total_original : Int
  total_compressed : Int
  command_count : Nat
deriving DecidableEq, Repr

/-- The session-aggregate upsert performed by `record_saving`:
`INSERT ... VALUES (..., o, c, 1) ON CONFLICT DO UPDATE SET
total_original = total_original + o, total_compressed = total_compressed + c,
command_count = command_count + 1`. -/
def record_saving (row : Option SessionRow) (o c : Int) : Option SessionRow :=
  match row with
  | none => some ⟨o, c, 1⟩
  | some r => some ⟨r.total_original + o, r.total_compressed + c, r.command_count + 1⟩

/-- The stats record returned by `get_session_stats`. -/
structure SessionStats where
  commands : Nat
  original : Int
  compressed : Int
  saved : Int
  ratioPct : ℚ
deriving DecidableEq, Repr

/-- Round a rational to the nearest integer, ties to even — the rounding
CPython's `round` applies to the exact value. -/
def roundHalfEven (q : ℚ) : ℤ :=
  if q - ⌊q⌋ < 1 / 2 then ⌊q⌋
  else if q - ⌊q⌋ > 1 / 2 then ⌊q⌋ + 1
  else if ⌊q⌋ % 2 = 0 then ⌊q⌋ else ⌊q⌋ + 1

/-- Python's `round(x, 1)` on the exact rational value of the ratio: ties
round to even, as CPython does.  (The program computes the ratio in IEEE
floats; the exact rational models it, so a divergence remains possible only
where the float representation of the ratio is inexact at a tie.) -/
def round1 (q : ℚ) : ℚ := ((roundHalfEven (q * 10) : ℤ) : ℚ) / 10

/-- `SavingsTracker.get_session_stats`: a missing row reports zeros; else
saved is the difference of the totals and the ratio is the percentage
saved, rounded to one decimal, guarded against division by zero. -/
def get_session_stats (row : Option SessionRow) : SessionStats :=
  match row with
  | none => ⟨0, 0, 0, 0, 0⟩
  | some r =>
    let saved := r.total_original - r.total_compressed
    ⟨r.command_count, r.total_original, r.total_compressed, saved,
      if 0 < r.total_original then
        round1 ((saved : ℚ) / (r.total_original : ℚ) * 100)
      else 0⟩

/-- The session row after a sequence of `record_saving` calls with the
given (original, compressed) size pairs, starting from no row. -/
def sessionAfter (records : List (Int × Int)) : Option SessionRow :=
  records.foldl (fun row p => record_saving row p.1 p.2) none

/-- Sum of the original sizes. -/
def sumOrig (records : List (Int × Int)) : Int := (records.map (fun p => p.1)).sum

/-- Sum of the compressed sizes. -/
def sumComp (records : List (Int × Int)) : Int := (records.map (fun p => p.2)).sum

end SavingsTracker

namespace Registry

/-- A processor as the registry sees it: its priority, its `can_handle`
predicate and its name (instances of the Python classes). -/
structure Proc where
  priority : Nat
  canHandle : String → Bool
  name : String

/-- Python's stable ascending sort by priority (`instances.sort(key=...)`). -/
def sortProcs (ps : List Proc) : List Proc :=
  List.insertionSort (fun a b => a.priority ≤ b.priority) ps

/-- `discover_processors` on a given set of instantiated processors:
after sorting, raise (`Except.error`) when a last element exists with
priority other than 999; otherwise return the sorted list.  Note the
source checks only the priority, not `can_handle`. -/
def discover_processors (ps : List Proc) : Except String (List Proc) :=
  let instances := sortProcs ps
  match instances.getLast? with
  | some p =>
    if p.priority ≠ 999 then
      .error ("GenericProcessor (priority 999) must be the lowest-priority processor, " ++
        "but last processor is " ++ p.name ++ " with priority " ++ toString p.priority)
    else .ok instances
  | none => .ok instances

end Registry

/-- Instance needed to invoke the library's sortedness theorem for the
registry's priority order. -/
instance : IsTotal Registry.Proc (fun a b => a.priority ≤ b.priority) :=
  ⟨fun a b => Nat.le_total a.priority b.priority⟩

/-- Transitivity of the registry's priority order. -/
instance : IsTrans Registry.Proc (fun a b => a.priority ≤ b.priority) :=
  ⟨fun _ _ _ hab hbc => Nat.le_trans hab hbc⟩

/-- Statement helper: the last line of a text, if any, is not blank. -/
def lastLineOk (t : List Char) : Bool :=
  match (splitlines t).getLast? with
  | some l => !isBlankL l
  | none => true

/-- Statement helper: the list does not start with the given line. -/
def headIsNot (x : List Char) : List (List Char) → Bool
  | [] => true
  | r :: _ => if r = x then false else true

/-- Statement helper: the first line of `rest`, if any, does not normalize
to `nrm`, so it cannot extend an open fuzzy group with that form. -/
def breaksRun (nrm : List Char) : List (List Char) → Bool
  | [] => true
  | r :: _ => if GenericProcessor.normalize_numbers r = nrm then false else true

/-- One match line of the grep scenario of claim C1: `file:n:x`. -/
def searchLine (f : List Char) (n : Nat) : List Char :=
  f ++ [ ':' ] ++ natChars n ++ (":x").data

/-- The grep-style output of claim C1: 25 matches over 3 files, 10 in
`a.py`, 10 in `b.py`, 5 in `c.py` — 25 lines in all. -/
def searchInput : List Char :=
  joinNL (((List.range 10).map (fun i => searchLine (("a.py").data) (i + 1))) ++
    ((List.range 10).map (fun i => searchLine (("b.py").data) (i + 1))) ++
    ((List.range 5).map (fun i => searchLine (("c.py").data) (i + 1))))

/-- The lines `SearchProcessor.process` emits for `a.py` on `searchInput`:
a header with the match count, three samples, an elision count — five lines. -/
def searchGroupA : List (List Char) :=
  [("a.py: (10 matches)").data, ("  1:x").data, ("  2:x").data, ("  3:x").data,
   ("  ... (7 more)").data]

/-- The lines emitted for `b.py` on `searchInput`. -/
def searchGroupB : List (List Char) :=
  [("b.py: (10 matches)").data, ("  1:x").data, ("  2:x").data, ("  3:x").data,
   ("  ... (7 more)").data]

/-- The lines emitted for `c.py` on `searchInput`. -/
def searchGroupC : List (List Char) :=
  [("c.py: (5 matches)").data, ("  1:x").data, ("  2:x").data, ("  3:x").data,
   ("  ... (2 more)").data]

/-- The full expected output of `SearchProcessor.process` on `searchInput`. -/
def searchExpected : List (List Char) :=
  ("25 matches across 3 files:").data :: searchGroupA ++ searchGroupB ++ searchGroupC

/-- A well-formed 20-line grep output one line of which (`"no colon here"`,
in fact all of them) contains no colon — the shape on which the source's
`(m and "/" in m.group(1)) or "." in m.group(1)` dereferences `None`. -/
def badSearchInput : List Char := joinNL (List.replicate 20 (("no colon here").data))

/-- The destroy-block plan output of claim C5: 26 filler lines (to pass the
30-line engagement threshold) followed by a resource destruction block
with one change-marked attribute and one unmarked attribute. -/
def tfInput : List Char :=
  joinNL (List.replicate 26 (("filler line").data) ++
    [("  # aws_instance.web will be destroyed").data,
     ("  - resource \"aws_instance\" \"web\" \x7b").data,
     ("      - size = 100 -> null").data,
     ("      tags = \x7b\x7d").data,
     ("    \x7d").data,
     ("Plan: 0 to add, 0 to change, 1 to destroy.").data])

/-- The change-marked attribute line inside the destroy block of `tfInput`. -/
def tfDestroyAttr : List Char := ("      - size = 100 -> null").data

/-- The lines `TerraformProcessor.process` keeps from `tfInput`. -/
def tfExpected : List (List Char) :=
  [("  # aws_instance.web will be destroyed").data,
   ("  - resource \"aws_instance\" \"web\" \x7b").data,
   tfDestroyAttr,
   ("    \x7d").data,
   ("Plan: 0 to add, 0 to change, 1 to destroy.").data]

/-- The seven numeric-heavy progress lines of claim C8's witness, differing
only in the embedded percentage. -/
def pctLines7 : List (List Char) :=
  [("progress: 10% done").data, ("progress: 20% done").data, ("progress: 30% done").data,
   ("progress: 40% done").data, ("progress: 50% done").data, ("progress: 60% done").data,
   ("progress: 70% done").data]

/-- The two-line run of claim C8's witness. -/
def pctLines2 : List (List Char) :=
  [("progress: 10% done").data, ("progress: 20% done").data]

/-- An eight-line output used to witness the truncation stage of claim C9. -/
def truncDemo : List Char :=
  ("alpha\nbravo\ncharlie\ndelta\necho\nfoxtrot\ngolf\nhotel").data

/-- A processor whose priority is 999 but whose `can_handle` is not
unconditionally true — the configuration claim C2 says discovery must
reject it, while the source accepts it. -/
def badProc : Registry.Proc :=
  ⟨999, fun c => decide (c = "never"), "generic"⟩

/-- Claim C10: whenever `NetworkProcessor.can_handle` accepts a command that
contains neither `curl` nor `wget` as a word (for example one that merely
mentions `http`), `process` returns the output unchanged — for every choice
of the curl/wget sub-strategies. -/
theorem C10_network_passthrough (pc pw : List Char → List Char → List Char)
    (command output : List Char)
    (h1 : NetworkProcessor.can_handle command = true)
    (h2 : wordSearch (("curl").data) command = false)
    (h3 : wordSearch (("wget").data) command = false) :
    NetworkProcessor.process pc pw command output = output := by
  simp [NetworkProcessor.process, h2, h3]

/-- Witness for C10 at the command `"http server"`, which `can_handle`
accepts without the output being touched. -/
theorem C10_witness :
    NetworkProcessor.can_handle (("http server").data) = true ∧
    wordSearch (("curl").data) (("http server").data) = false ∧
    wordSearch (("wget").data) (("http server").data) = false ∧
    NetworkProcessor.process (fun _ o => o) (fun _ o => o) (("http server").data)
      (("GET / 200 OK").data) = ("GET / 200 OK").data :=
  ⟨by decide, by decide, by decide,
    C10_network_passthrough (fun _ o => o) (fun _ o => o) (("http server").data)
      (("GET / 200 OK").data) (by decide) (by decide) (by decide)⟩

/-- Folding `record_saving` from an existing row adds the sums of the sizes
and the number of records to the row's fields. -/
theorem recordSaving_foldl (records : List (Int × Int)) :
    ∀ r : SavingsTracker.SessionRow,
      records.foldl (fun row p => SavingsTracker.record_saving row p.1 p.2) (some r) =
        some ⟨r.total_original + SavingsTracker.sumOrig records,
              r.total_compressed + SavingsTracker.sumComp records,
              r.command_count + records.length⟩ := by
  induction records with
  | nil =>
    intro r
    simp [SavingsTracker.sumOrig, SavingsTracker.sumComp]
  | cons p ps ih =>
    intro r
    simp only [List.foldl_cons]
    rw [show SavingsTracker.record_saving (some r) p.1 p.2 =
      some ⟨r.total_original + p.1, r.total_compressed + p.2, r.command_count + 1⟩ from rfl]
    rw [ih ⟨r.total_original + p.1, r.total_compressed + p.2, r.command_count + 1⟩]
    simp only [SavingsTracker.sumOrig, SavingsTracker.sumComp, List.map_cons, List.sum_cons,
      List.length_cons, Option.some.injEq, SavingsTracker.SessionRow.mk.injEq]
    refine ⟨by ring, by ring, by omega⟩

/-- Claim C4: after any sequence of `record_saving` calls in one session,
`get_session_stats` reports `saved = Σo − Σc`, the count of records, and —
when the total original size is positive — the saved percentage rounded to
one decimal; with no records it reports count 0 and ratio 0 without any
division by zero. -/
theorem C4_session_stats (records : List (Int × Int)) :
    (SavingsTracker.get_session_stats (SavingsTracker.sessionAfter records)).commands =
      records.length ∧
    (SavingsTracker.get_session_stats (SavingsTracker.sessionAfter records)).saved =
      SavingsTracker.sumOrig records - SavingsTracker.sumComp records ∧
    (0 < SavingsTracker.sumOrig records →
      (SavingsTracker.get_session_stats (SavingsTracker.sessionAfter records)).ratioPct =
        SavingsTracker.round1
          (((SavingsTracker.sumOrig records - SavingsTracker.sumComp records : Int) : ℚ) /
            ((SavingsTracker.sumOrig records : Int) : ℚ) * 100)) ∧
    (records = [] →
      SavingsTracker.get_session_stats (SavingsTracker.sessionAfter records) = ⟨0, 0, 0, 0, 0⟩) := by
  cases records with
  | nil =>
    refine ⟨rfl, rfl, ?_, fun _ => rfl⟩
    intro h
    simp [SavingsTracker.sumOrig] at h
  | cons p ps =>
    have hfold : SavingsTracker.sessionAfter (p :: ps) =
        some ⟨p.1 + SavingsTracker.sumOrig ps, p.2 + SavingsTracker.sumComp ps,
          1 + ps.length⟩ := by
      simp only [SavingsTracker.sessionAfter, List.foldl_cons, SavingsTracker.record_saving]
      exact recordSaving_foldl ps ⟨p.1, p.2, 1⟩
    have hso : SavingsTracker.sumOrig (p :: ps) = p.1 + SavingsTracker.sumOrig ps := by
      simp [SavingsTracker.sumOrig]
    have hsc : SavingsTracker.sumComp (p :: ps) = p.2 + SavingsTracker.sumComp ps := by
      simp [SavingsTracker.sumComp]
    rw [hfold]
    simp only [SavingsTracker.get_session_stats, hso, hsc]
    refine ⟨by simp [Nat.add_comm], by trivial, ?_, by intro h; simp at h⟩
    intro hpos
    rw [if_pos]
    exact_mod_cast hpos

/-- Witness for C4: two records of sizes (100, 40) and (50, 10) give
2 commands, 100 bytes saved, and a ratio of 66.7 percent; a single record
of sizes (1600, 1500) hits the exact tie 6.25, which rounds to even — a
ratio of 6.2, as the program reports. -/
theorem C4_witness :
    (0 < SavingsTracker.sumOrig [((100 : Int), (40 : Int)), (50, 10)] ∧
    (SavingsTracker.get_session_stats
      (SavingsTracker.sessionAfter [((100 : Int), (40 : Int)), (50, 10)])).commands = 2 ∧
    (SavingsTracker.get_session_stats
      (SavingsTracker.sessionAfter [((100 : Int), (40 : Int)), (50, 10)])).saved = 100 ∧
    (SavingsTracker.get_session_stats
      (SavingsTracker.sessionAfter [((100 : Int), (40 : Int)), (50, 10)])).ratioPct =
      (667 : ℚ) / 10) ∧
    (0 < SavingsTracker.sumOrig [((1600 : Int), (1500 : Int))] ∧
    (SavingsTracker.get_session_stats
      (SavingsTracker.sessionAfter [((1600 : Int), (1500 : Int))])).ratioPct =
      (62 : ℚ) / 10) := by
  have h := C4_session_stats [((100 : Int), (40 : Int)), (50, 10)]
  have hpos : (0 : Int) < SavingsTracker.sumOrig [((100 : Int), (40 : Int)), (50, 10)] := by
    decide
  have h2 := C4_session_stats [((1600 : Int), (1500 : Int))]
  have hpos2 : (0 : Int) < SavingsTracker.sumOrig [((1600 : Int), (1500 : Int))] := by
    decide
  refine ⟨⟨hpos, h.1, ?_, ?_⟩, hpos2, ?_⟩
  · rw [h.2.1]
    decide
  · rw [h.2.2.1 hpos]
    have hs1 : SavingsTracker.sumOrig [((100 : Int), (40 : Int)), (50, 10)] = 150 := by decide
    have hs2 : SavingsTracker.sumComp [((100 : Int), (40 : Int)), (50, 10)] = 50 := by decide
    rw [hs1, hs2]
    unfold SavingsTracker.round1 SavingsTracker.roundHalfEven
    rw [show ((((150 : Int) - 50 : Int) : ℚ) / ((150 : Int) : ℚ) * 100 * 10) = 2000 / 3 by
      norm_num]
    rw [show ⌊(2000 : ℚ) / 3⌋ = (666 : ℤ) from by
      rw [Int.floor_eq_iff]
      constructor <;> norm_num]
    rw [if_neg (by norm_num), if_pos (by norm_num)]
    norm_num
  · rw [h2.2.2.1 hpos2]
    have hs3 : SavingsTracker.sumOrig [((1600 : Int), (1500 : Int))] = 1600 := by decide
    have hs4 : SavingsTracker.sumComp [((1600 : Int), (1500 : Int))] = 1500 := by decide
    rw [hs3, hs4]
    unfold SavingsTracker.round1 SavingsTracker.roundHalfEven
    rw [show ((((1600 : Int) - 1500 : Int) : ℚ) / ((1600 : Int) : ℚ) * 100 * 10) = 125 / 2 by
      norm_num]
    rw [show ⌊(125 : ℚ) / 2⌋ = (62 : ℤ) from by
      rw [Int.floor_eq_iff]
      constructor <;> norm_num]
    rw [if_neg (by norm_num), if_neg (by norm_num), if_pos (by norm_num)]
    norm_num

/-- Claim C2, corrected: discovery raises exactly when the sorted list is
nonempty and its last element's priority differs from 999 — the
`can_handle` of the last element is never inspected — and on acceptance it
returns the processors sorted ascending by priority. -/
theorem C2_registry_validation (ps : List Registry.Proc) :
    (match (Registry.sortProcs ps).getLast? with
     | some p =>
       if p.priority = 999 then
         Registry.discover_processors ps = .ok (Registry.sortProcs ps)
       else ∃ msg, Registry.discover_processors ps = .error msg
     | none => Registry.discover_processors ps = .ok (Registry.sortProcs ps)) ∧
    (Registry.sortProcs ps).Pairwise (fun a b => a.priority ≤ b.priority) := by
  constructor
  · unfold Registry.discover_processors
    cases h : (Registry.sortProcs ps).getLast? with
    | none => simp [h]
    | some p =>
      by_cases hp : p.priority = 999
      · simp [h, hp]
      · simp [h, hp]
  · exact List.sorted_insertionSort (fun a b => a.priority ≤ b.priority) ps

/-- Counterexample to claim C2 as stated: a processor set whose sorted last
element has priority 999 but a conditional `can_handle` is accepted by
`discover_processors` instead of raising. -/
theorem C2_counterexample :
    Registry.discover_processors [badProc] = .ok [badProc] ∧
    (Registry.sortProcs [badProc]).getLast? = some badProc ∧
    badProc.priority = 999 ∧
    badProc.canHandle ("grep") = false :=
  ⟨rfl, rfl, rfl, rfl⟩

/-- Claim C3: on a well-formed 20-line output containing a line with no
colon, `SearchProcessor.process` raises (embedded as `none`) instead of
returning the output unchanged — the parenthesization of
`(m and "/" in m.group(1)) or "." in m.group(1)` dereferences `m` when the
line-shape regex did not match. -/
theorem C3_search_raises :
    SearchProcessor.process (("grep pattern src").data) badSearchInput = none := by rfl

/-- Counterexample to claim C1 as stated: on the 25-match/3-file input the
group emitted for the 10-match file `a.py` occupies five output lines (its
header line with the match count, three samples and the elision count),
not at most four. -/
theorem C1_counterexample :
    SearchProcessor.process (("grep x .").data) searchInput = some (joinNL searchExpected) ∧
    searchExpected =
      ("25 matches across 3 files:").data :: searchGroupA ++ searchGroupB ++ searchGroupC ∧
    searchGroupA.length = 5 ∧ ¬ searchGroupA.length ≤ 4 :=
  ⟨by rfl, rfl, rfl, by decide⟩

/-- Claim C1, corrected: the file groups are emitted in descending order of
match count (`a.py` and `b.py` with 10 before `c.py` with 5), and each
10-match file is compressed to exactly five output lines — a header with
the match count, three samples, and an elision count. -/
theorem C1_search_grouping :
    SearchProcessor.process (("grep x .").data) searchInput =
      some (joinNL (("25 matches across 3 files:").data ::
        searchGroupA ++ searchGroupB ++ searchGroupC)) ∧
    searchGroupA.length = 5 ∧ searchGroupB.length = 5 ∧ searchGroupC.length = 5 ∧
    searchGroupA.headD [] = ("a.py: (10 matches)").data ∧
    searchGroupB.headD [] = ("b.py: (10 matches)").data ∧
    searchGroupC.headD [] = ("c.py: (5 matches)").data :=
  ⟨by rfl, rfl, rfl, rfl, rfl, rfl, rfl⟩

/-- Claim C9: when the line count after the compression stages exceeds the
configured threshold, `process` keeps the configured number of head and
tail lines around exactly one marker element stating how many lines were
removed and the original total. -/
theorem C9_truncation (cfg : GenericProcessor.Config) (command output : List Char)
    (hlen : cfg.generic_truncate_threshold < (GenericProcessor.stageLines output).length)
    (htail : 0 < cfg.generic_keep_tail)
    (hfit : cfg.generic_keep_head + cfg.generic_keep_tail ≤
      (GenericProcessor.stageLines output).length) :
    GenericProcessor.process cfg command output =
      joinNL ((GenericProcessor.stageLines output).take cfg.generic_keep_head ++
        [GenericProcessor.truncMarker
          (((GenericProcessor.stageLines output).length : Int) -
            cfg.generic_keep_head - cfg.generic_keep_tail)
          (GenericProcessor.stageLines output).length] ++
        (GenericProcessor.stageLines output).drop
          ((GenericProcessor.stageLines output).length - cfg.generic_keep_tail)) ∧
    ((GenericProcessor.stageLines output).take cfg.generic_keep_head).length =
      cfg.generic_keep_head ∧
    ((GenericProcessor.stageLines output).drop
      ((GenericProcessor.stageLines output).length - cfg.generic_keep_tail)).length =
      cfg.generic_keep_tail := by
  refine ⟨?_, ?_, ?_⟩
  · simp only [GenericProcessor.process]
    rw [if_pos hlen]
    simp only [GenericProcessor.truncate_middle, GenericProcessor.pyTail]
    rw [if_neg (Nat.pos_iff_ne_zero.mp htail)]
  · rw [List.length_take]
    omega
  · rw [List.length_drop]
    omega

/-- Witness for C9: with threshold 5 and keep counts 2/2, the eight-line
output `truncDemo` is cut to two head lines, one marker, two tail lines. -/
theorem C9_witness :
    (⟨5, 2, 2⟩ : GenericProcessor.Config).generic_truncate_threshold <
      (GenericProcessor.stageLines truncDemo).length ∧
    GenericProcessor.process ⟨5, 2, 2⟩ (("make build").data) truncDemo =
      joinNL ((GenericProcessor.stageLines truncDemo).take 2 ++
        [GenericProcessor.truncMarker (((GenericProcessor.stageLines truncDemo).length : Int) -
          2 - 2) (GenericProcessor.stageLines truncDemo).length] ++
        (GenericProcessor.stageLines truncDemo).drop
          ((GenericProcessor.stageLines truncDemo).length - 2)) :=
  ⟨by decide,
    (C9_truncation ⟨5, 2, 2⟩ (("make build").data) truncDemo (by decide) (by decide)
      (by decide)).1⟩

/-- Flushing a run of `m` further copies of a nonblank line `x` after `c`
copies already counted gives one flush of `c + m` and continues as a fresh
scan of the remainder. -/
theorem collapseRepGo_run (x : List Char) (hx : isBlankL x = false) :
    ∀ (m c : Nat) (rest : List (List Char)), headIsNot x rest = true →
      GenericProcessor.collapseRepGo x c (List.replicate m x ++ rest) =
        GenericProcessor.flushRep x (c + m) ++ GenericProcessor.collapse_repeated_lines rest := by
  intro m
  induction m with
  | zero =>
    intro c rest hrest
    simp only [List.replicate_zero, List.nil_append]
    cases rest with
    | nil => simp [GenericProcessor.collapseRepGo, GenericProcessor.collapse_repeated_lines]
    | cons r rs =>
      have hne : ¬ (r = x ∧ isBlankL x = false) := by
        intro hc
        rw [hc.1] at hrest
        simp [headIsNot] at hrest
      simp only [GenericProcessor.collapseRepGo, GenericProcessor.collapse_repeated_lines]
      rw [if_neg hne, Nat.add_zero]
  | succ m ih =>
    intro c rest hrest
    rw [List.replicate_succ, List.cons_append]
    simp only [GenericProcessor.collapseRepGo]
    rw [if_pos ⟨trivial, hx⟩]
    rw [ih (c + 1) rest hrest]
    rw [show c + 1 + m = c + (m + 1) by omega]

/-- Claim C7: every run of `n ≥ 2` consecutive identical non-blank lines is
collapsed to a single line annotated `(xn)`; the remainder of the output is
processed independently. -/
theorem C7_repeated_collapse (x : List Char) (n : Nat) (rest : List (List Char))
    (hx : isBlankL x = false) (hn : 2 ≤ n) (hrest : headIsNot x rest = true) :
    GenericProcessor.collapse_repeated_lines (List.replicate n x ++ rest) =
      (x ++ (" (x").data ++ natChars n ++ (")").data) ::
        GenericProcessor.collapse_repeated_lines rest := by
  obtain ⟨m, rfl⟩ : ∃ m, n = m + 2 := ⟨n - 2, by omega⟩
  rw [List.replicate_succ, List.cons_append]
  simp only [GenericProcessor.collapse_repeated_lines]
  rw [collapseRepGo_run x hx (m + 1) 1 rest hrest]
  have : 1 + (m + 1) = m + 2 := by omega
  rw [this]
  simp only [GenericProcessor.flushRep]
  rw [if_pos (by omega : m + 2 > 1)]
  rw [List.singleton_append]
  cases rest <;> rfl

/-- Witness for C7: the source's own example — `["ok","ok","ok","done"]`
becomes `["ok (x3)","done"]`. -/
theorem C7_witness :
    GenericProcessor.collapse_repeated_lines
      [("ok").data, ("ok").data, ("ok").data, ("done").data] =
      [("ok (x3)").data, ("done").data] := by
  have h := C7_repeated_collapse (("ok").data) 3 [("done").data] (by decide) (by decide)
    (by decide)
  rw [show List.replicate 3 (("ok").data) ++ [("done").data] =
    [("ok").data, ("ok").data, ("ok").data, ("done").data] from rfl] at h
  rw [h]
  rfl

/-- Growing an open fuzzy group: while every line of `g` normalizes to the
form of the group's first line `l0` (which is nonblank, long enough and
numeric-heavy), the lines accumulate; the first line of `rest` breaks the
run, which is then flushed, and scanning restarts on `rest`. -/
theorem collapseSimGo_run (l0 : List Char) (h1 : isBlankL l0 = false)
    (h2 : (stripL l0).length > 10) (h3 : GenericProcessor.is_numeric_heavy l0 = true) :
    ∀ (g : List (List Char)), (∀ l ∈ g, GenericProcessor.normalize_numbers l =
        GenericProcessor.normalize_numbers l0) →
      ∀ (acc rest : List (List Char)),
        breaksRun (GenericProcessor.normalize_numbers l0) rest = true →
        GenericProcessor.collapseSimGo l0 (GenericProcessor.normalize_numbers l0) acc
          (g ++ rest) =
          GenericProcessor.flush_similar (acc ++ g) ++
            GenericProcessor.collapse_similar_lines rest := by
  intro g
  induction g with
  | nil =>
    intro _ acc rest hrest
    simp only [List.nil_append, List.append_nil]
    cases rest with
    | nil => simp [GenericProcessor.collapseSimGo, GenericProcessor.collapse_similar_lines]
    | cons r rs =>
      have hne : ¬ (GenericProcessor.normalize_numbers r =
          GenericProcessor.normalize_numbers l0 ∧ isBlankL l0 = false ∧
          (stripL l0).length > 10 ∧ GenericProcessor.is_numeric_heavy l0 = true) := by
        intro hc
        rw [breaksRun, if_pos hc.1] at hrest
        cases hrest
      simp only [GenericProcessor.collapseSimGo, GenericProcessor.collapse_similar_lines]
      rw [if_neg hne]
  | cons l g2 ih =>
    intro hall acc rest hrest
    rw [List.cons_append]
    simp only [GenericProcessor.collapseSimGo]
    rw [if_pos ⟨hall l (List.mem_cons_self l g2), h1, h2, h3⟩]
    rw [ih (fun x hx => hall x (List.mem_cons_of_mem l hx)) (acc ++ [l]) rest hrest]
    rw [List.append_assoc]
    rfl

/-- Claim C8: a run of 7 consecutive numeric-heavy lines sharing one
normalized form collapses to exactly 3 lines — first line, an elision
marker stating 5 lines omitted, last line — while a run of 2 (indeed of
2–4) such lines is left unmerged. -/
theorem C8_similar_collapse (l0 : List Char) (gtail rest : List (List Char))
    (h1 : isBlankL l0 = false) (h2 : (stripL l0).length > 10)
    (h3 : GenericProcessor.is_numeric_heavy l0 = true)
    (hnorm : ∀ l ∈ gtail, GenericProcessor.normalize_numbers l =
      GenericProcessor.normalize_numbers l0)
    (hrest : breaksRun (GenericProcessor.normalize_numbers l0) rest = true) :
    ((l0 :: gtail).length = 7 →
      GenericProcessor.collapse_similar_lines ((l0 :: gtail) ++ rest) =
        [l0, ("  ... (5 similar lines)").data, (l0 :: gtail).getLastD []] ++
          GenericProcessor.collapse_similar_lines rest) ∧
    (2 ≤ (l0 :: gtail).length → (l0 :: gtail).length ≤ 4 →
      GenericProcessor.collapse_similar_lines ((l0 :: gtail) ++ rest) =
        (l0 :: gtail) ++ GenericProcessor.collapse_similar_lines rest) := by
  have hmain : GenericProcessor.collapse_similar_lines ((l0 :: gtail) ++ rest) =
      GenericProcessor.flush_similar (l0 :: gtail) ++
        GenericProcessor.collapse_similar_lines rest := by
    rw [List.cons_append]
    simp only [GenericProcessor.collapse_similar_lines]
    have := collapseSimGo_run l0 h1 h2 h3 gtail hnorm [l0] rest hrest
    rw [this]
    rfl
  constructor
  · intro hlen
    rw [hmain]
    simp only [GenericProcessor.flush_similar]
    rw [if_pos (by omega : (l0 :: gtail).length ≥ 5), hlen]
    rfl
  · intro hge hle
    rw [hmain]
    simp only [GenericProcessor.flush_similar]
    rw [if_neg (by omega : ¬ (l0 :: gtail).length ≥ 5)]

/-- Witness for C8: seven progress lines differing only in the percentage
collapse to first/elision/last, and the corresponding two-line run is left
untouched. -/
theorem C8_witness :
    GenericProcessor.collapse_similar_lines pctLines7 =
      [("progress: 10% done").data, ("  ... (5 similar lines)").data,
       ("progress: 70% done").data] ∧
    GenericProcessor.collapse_similar_lines pctLines2 = pctLines2 := by
  constructor
  · have h := (C8_similar_collapse (("progress: 10% done").data)
      [("progress: 20% done").data, ("progress: 30% done").data,
       ("progress: 40% done").data, ("progress: 50% done").data,
       ("progress: 60% done").data, ("progress: 70% done").data] []
      (by decide) (by decide) (by decide) (by decide) (by decide)).1 (by decide)
    simp only [List.append_nil] at h
    rw [show pctLines7 = (("progress: 10% done").data ::
      [("progress: 20% done").data, ("progress: 30% done").data,
       ("progress: 40% done").data, ("progress: 50% done").data,
       ("progress: 60% done").data, ("progress: 70% done").data]) from rfl]
    rw [h]
    rfl
  · have h := (C8_similar_collapse (("progress: 10% done").data)
      [("progress: 20% done").data] []
      (by decide) (by decide) (by decide) (by decide) (by decide)).2 (by decide) (by decide)
    simp only [List.append_nil] at h
    rw [show pctLines2 = (("progress: 10% done").data ::
      [("progress: 20% done").data]) from rfl]
    rw [h]
    rfl

/-- Claim C5, corrected, as the per-line policy of the resource-block walk:
inside a resource change block, a line that is not a header, block
boundary, closing brace or provider-init pattern is kept exactly when it is
change-marked (contains `->` or starts with `~`, `+` or `-`), mentions
`(known after apply)` or `forces replacement`, or the block is a creation;
in particular a destruction block keeps its change-marked attribute lines
and drops only unmarked ones, and an update block keeps only the
changed/known-after-apply/forces-replacement attributes. -/
theorem C5_block_policy (action line : List Char) (resRev rest : List (List Char))
    (h1 : TerraformProcessor.providerInit (stripL line) = false)
    (h2 : TerraformProcessor.dashInstalled (stripL line) = false)
    (h3 : TerraformProcessor.backendInfo (stripL line) = false)
    (h4 : TerraformProcessor.hashHeader (stripL line) = false)
    (h5 : TerraformProcessor.wsHashHeader (stripL line) = false)
    (h6 : TerraformProcessor.resourceBoundary (stripL line) = false)
    (h7 : stripL line ≠ [ '\x7d' ]) :
    TerraformProcessor.tfGo true action resRev (line :: rest) =
      (if TerraformProcessor.changeMarked (stripL line) = true ∨
          TerraformProcessor.knownAfterApply (stripL line) = true ∨
          TerraformProcessor.forcesReplacement (stripL line) = true ∨
          action = [ '+' ]
       then TerraformProcessor.tfGo true action (line :: resRev) rest
       else TerraformProcessor.tfGo true action resRev rest) := by
  simp only [TerraformProcessor.tfGo, h1, h2, h3, h4, h5, h6, decide_eq_false h7,
    Bool.or_self, Bool.false_eq_true, if_false, Bool.true_and, Bool.and_false, Bool.false_or,
    if_true]
  by_cases hcm : TerraformProcessor.changeMarked (stripL line) = true
  · rw [if_pos hcm, if_pos (Or.inl hcm)]
  · rw [if_neg hcm]
    by_cases hka : TerraformProcessor.knownAfterApply (stripL line) = true
    · rw [if_pos hka, if_pos (Or.inr (Or.inl hka))]
    · rw [if_neg hka]
      by_cases hfr : TerraformProcessor.forcesReplacement (stripL line) = true
      · rw [if_pos hfr, if_pos (Or.inr (Or.inr (Or.inl hfr)))]
      · rw [if_neg hfr]
        by_cases hac : action = [ '+' ]
        · rw [if_pos hac, if_pos (Or.inr (Or.inr (Or.inr hac)))]
        · rw [if_neg hac, if_neg (by tauto)]

/-- Witness for C5's per-line policy: the change-marked attribute
`"      - size = 100 -> null"` of a destruction block is kept. -/
theorem C5_witness :
    TerraformProcessor.changeMarked (stripL tfDestroyAttr) = true ∧
    TerraformProcessor.tfGo true [ '-' ] [] (tfDestroyAttr :: []) =
      (if TerraformProcessor.changeMarked (stripL tfDestroyAttr) = true ∨
          TerraformProcessor.knownAfterApply (stripL tfDestroyAttr) = true ∨
          TerraformProcessor.forcesReplacement (stripL tfDestroyAttr) = true ∨
          [ '-' ] = ([ '+' ] : List Char)
       then TerraformProcessor.tfGo true [ '-' ] [tfDestroyAttr] []
       else TerraformProcessor.tfGo true [ '-' ] [] []) :=
  ⟨by decide,
    C5_block_policy [ '-' ] tfDestroyAttr [] [] (by decide) (by decide) (by decide)
      (by decide) (by decide) (by decide) (by decide)⟩

/-- No escape-sequence match can start at a character other than ESC. -/
theorem ansiMatch_none_of_ne (c : Char) (rest : List Char) (h : c ≠ '\x1b') :
    ansiMatch (c :: rest) = none := by
  cases rest with
  | nil => rfl
  | cons d r2 => simp [ansiMatch, h]

/-- ANSI stripping is the identity on lines without the ESC character. -/
theorem ansiStripFuel_id (fuel : Nat) :
    ∀ l : List Char, (∀ c ∈ l, c ≠ '\x1b') → ansiStripFuel fuel l = l := by
  induction fuel with
  | zero => intro l _; cases l <;> rfl
  | succ fuel ih =>
    intro l hl
    cases l with
    | nil => rfl
    | cons c rest =>
      simp only [ansiStripFuel]
      rw [ansiMatch_none_of_ne c rest (hl c (List.mem_cons_self c rest))]
      rw [ih rest (fun x hx => hl x (List.mem_cons_of_mem c hx))]

/-- `ansiStrip` is the identity on lines without the ESC character. -/
theorem ansiStrip_id (l : List Char) (hl : ∀ c ∈ l, c ≠ '\x1b') : ansiStrip l = l :=
  ansiStripFuel_id l.length l hl

/-- The line splitter never returns an empty list of lines. -/
theorem splitAux_ne_nil (cs : List Char) : ∀ acc, splitAux cs acc ≠ [] := by
  induction cs with
  | nil => intro acc; simp [splitAux]
  | cons c rest ih =>
    intro acc
    cases rest with
    | nil =>
      simp only [splitAux]
      split
      · simp
      · simp [splitAux]
    | cons d r2 =>
      cases r2 with
      | nil =>
        simp only [splitAux]
        split
        · split
          · simp
          · simp
        · exact ih (c :: acc)
      | cons e r3 =>
        simp only [splitAux]
        split
        · split
          · simp
          · simp
        · exact ih (c :: acc)

/-- Length-bounded form: every character of every produced line comes from
the input or the accumulator. -/
theorem splitAux_chars_len (n : Nat) :
    ∀ cs : List Char, cs.length ≤ n →
      ∀ acc l, l ∈ splitAux cs acc → ∀ ch ∈ l, ch ∈ cs ∨ ch ∈ acc := by
  induction n with
  | zero =>
    intro cs hcs acc l hl ch hch
    have h0 : cs = [] := List.length_eq_zero.mp (Nat.le_zero.mp hcs)
    subst h0
    simp only [splitAux, List.mem_singleton] at hl
    subst hl
    exact Or.inr (List.mem_reverse.mp hch)
  | succ n ih =>
    intro cs hcs acc l hl ch hch
    cases cs with
    | nil =>
      simp only [splitAux, List.mem_singleton] at hl
      subst hl
      exact Or.inr (List.mem_reverse.mp hch)
    | cons c rest =>
      cases rest with
      | nil =>
        simp only [splitAux] at hl
        split at hl
        · simp only [List.mem_singleton] at hl
          subst hl
          exact Or.inr (List.mem_reverse.mp hch)
        · simp only [splitAux, List.mem_singleton] at hl
          subst hl
          rcases List.mem_cons.mp (List.mem_reverse.mp hch) with h3 | h3
          · exact Or.inl (h3 ▸ List.mem_cons_self c [])
          · exact Or.inr h3
      | cons d r2 =>
        cases r2 with
        | nil =>
          simp only [splitAux] at hl
          split at hl
          · split at hl
            · simp only [List.mem_singleton] at hl
              subst hl
              exact Or.inr (List.mem_reverse.mp hch)
            · rcases List.mem_cons.mp hl with h1 | h1
              · subst h1
                exact Or.inr (List.mem_reverse.mp hch)
              · rcases ih [d] (by simp only [List.length_cons] at hcs ⊢; omega)
                  [] l h1 ch hch with h2 | h2
                · exact Or.inl (List.mem_cons_of_mem c h2)
                · cases h2
          · rcases ih [d] (by simp only [List.length_cons] at hcs ⊢; omega)
              (c :: acc) l hl ch hch with h2 | h2
            · exact Or.inl (List.mem_cons_of_mem c h2)
            · rcases List.mem_cons.mp h2 with h3 | h3
              · exact Or.inl (h3 ▸ List.mem_cons_self c [d])
              · exact Or.inr h3
        | cons e r3 =>
          simp only [splitAux] at hl
          split at hl
          · split at hl
            · rcases List.mem_cons.mp hl with h1 | h1
              · subst h1
                exact Or.inr (List.mem_reverse.mp hch)
              · rcases ih (e :: r3) (by simp only [List.length_cons] at hcs ⊢; omega)
                  [] l h1 ch hch with h2 | h2
                · exact Or.inl
                    (List.mem_cons_of_mem c (List.mem_cons_of_mem d h2))
                · cases h2
            · rcases List.mem_cons.mp hl with h1 | h1
              · subst h1
                exact Or.inr (List.mem_reverse.mp hch)
              · rcases ih (d :: e :: r3) (by simp only [List.length_cons] at hcs ⊢; omega)
                  [] l h1 ch hch with h2 | h2
                · exact Or.inl (List.mem_cons_of_mem c h2)
                · cases h2
          · rcases ih (d :: e :: r3) (by simp only [List.length_cons] at hcs ⊢; omega)
              (c :: acc) l hl ch hch with h2 | h2
            · exact Or.inl (List.mem_cons_of_mem c h2)
            · rcases List.mem_cons.mp h2 with h3 | h3
              · exact Or.inl (h3 ▸ List.mem_cons_self c (d :: e :: r3))
              · exact Or.inr h3

/-- Every character of every produced line comes from the input or the
accumulator. -/
theorem splitAux_chars (cs : List Char) :
    ∀ acc l, l ∈ splitAux cs acc → ∀ ch ∈ l, ch ∈ cs ∨ ch ∈ acc :=
  splitAux_chars_len cs.length cs (Nat.le_refl _)

/-- Length-bounded form: no produced line contains a line-break character
(given a break-free accumulator). -/
theorem splitAux_break_free_len (n : Nat) :
    ∀ cs : List Char, cs.length ≤ n →
      ∀ acc, (∀ ch ∈ acc, isLineBreak ch = false) →
        ∀ l ∈ splitAux cs acc, ∀ ch ∈ l, isLineBreak ch = false := by
  induction n with
  | zero =>
    intro cs hcs acc hacc l hl ch hch
    have h0 : cs = [] := List.length_eq_zero.mp (Nat.le_zero.mp hcs)
    subst h0
    simp only [splitAux, List.mem_singleton] at hl
    subst hl
    exact hacc ch (List.mem_reverse.mp hch)
  | succ n ih =>
    intro cs hcs acc hacc l hl ch hch
    cases cs with
    | nil =>
      simp only [splitAux, List.mem_singleton] at hl
      subst hl
      exact hacc ch (List.mem_reverse.mp hch)
    | cons c rest =>
      cases rest with
      | nil =>
        simp only [splitAux] at hl
        split at hl
        · simp only [List.mem_singleton] at hl
          subst hl
          exact hacc ch (List.mem_reverse.mp hch)
        · rename_i hc
          simp only [splitAux, List.mem_singleton] at hl
          subst hl
          rcases List.mem_cons.mp (List.mem_reverse.mp hch) with h3 | h3
          · subst h3
            rcases Bool.eq_false_or_eq_true (isLineBreak ch) with h4 | h4
            · exact absurd h4 hc
            · exact h4
          · exact hacc ch h3
      | cons d r2 =>
        cases r2 with
        | nil =>
          simp only [splitAux] at hl
          split at hl
          · split at hl
            · simp only [List.mem_singleton] at hl
              subst hl
              exact hacc ch (List.mem_reverse.mp hch)
            · rcases List.mem_cons.mp hl with h1 | h1
              · subst h1
                exact hacc ch (List.mem_reverse.mp hch)
              · exact ih [d] (by simp only [List.length_cons] at hcs ⊢; omega)
                  [] (by intro z hz; cases hz) l h1 ch hch
          · rename_i hc
            refine ih [d] (by simp only [List.length_cons] at hcs ⊢; omega) (c :: acc)
              ?_ l hl ch hch
            intro z hz
            rcases List.mem_cons.mp hz with h3 | h3
            · subst h3
              rcases Bool.eq_false_or_eq_true (isLineBreak z) with h4 | h4
              · exact absurd h4 hc
              · exact h4
            · exact hacc z h3
        | cons e r3 =>
          simp only [splitAux] at hl
          split at hl
          · split at hl
            · rcases List.mem_cons.mp hl with h1 | h1
              · subst h1
                exact hacc ch (List.mem_reverse.mp hch)
              · exact ih (e :: r3) (by simp only [List.length_cons] at hcs ⊢; omega)
                  [] (by intro z hz; cases hz) l h1 ch hch
            · rcases List.mem_cons.mp hl with h1 | h1
              · subst h1
                exact hacc ch (List.mem_reverse.mp hch)
              · exact ih (d :: e :: r3) (by simp only [List.length_cons] at hcs ⊢; omega)
                  [] (by intro z hz; cases hz) l h1 ch hch
          · rename_i hc
            refine ih (d :: e :: r3) (by simp only [List.length_cons] at hcs ⊢; omega)
              (c :: acc) ?_ l hl ch hch
            intro z hz
            rcases List.mem_cons.mp hz with h3 | h3
            · subst h3
              rcases Bool.eq_false_or_eq_true (isLineBreak z) with h4 | h4
              · exact absurd h4 hc
              · exact h4
            · exact hacc z h3

/-- Characters of a split line come from the split text. -/
theorem splitlines_chars {cs l : List Char} (hl : l ∈ splitlines cs) :
    ∀ ch ∈ l, ch ∈ cs := by
  intro ch hch
  cases cs with
  | nil => simp [splitlines] at hl
  | cons c rest =>
    rcases splitAux_chars (c :: rest) [] l hl ch hch with h | h
    · exact h
    · cases h

/-- Split lines contain no line-break character. -/
theorem splitlines_break_free {cs l : List Char} (hl : l ∈ splitlines cs) :
    ∀ ch ∈ l, isLineBreak ch = false := by
  cases cs with
  | nil => simp [splitlines] at hl
  | cons c rest =>
    exact splitAux_break_free_len (c :: rest).length (c :: rest) (Nat.le_refl _) []
      (by intro z hz; cases hz) l hl

/-- An empty split means an empty text. -/
theorem splitlines_eq_nil {cs : List Char} (h : splitlines cs = []) : cs = [] := by
  cases cs with
  | nil => rfl
  | cons c rest => exact absurd h (splitAux_ne_nil (c :: rest) [])

/-- Splitting a break-free text yields a single line. -/
theorem splitAux_no_break (cs : List Char) (h : ∀ ch ∈ cs, isLineBreak ch = false) :
    ∀ acc, splitAux cs acc = [acc.reverse ++ cs] := by
  induction cs with
  | nil => intro acc; simp [splitAux]
  | cons c rest ih =>
    intro acc
    have hc : isLineBreak c = false := h c (List.mem_cons_self c rest)
    have hstep : splitAux (c :: rest) acc = splitAux rest (c :: acc) := by
      cases rest with
      | nil =>
        simp only [splitAux]
        rw [if_neg (by simp [hc])]
      | cons d r2 =>
        cases r2 with
        | nil =>
          simp only [splitAux]
          rw [if_neg (by simp [hc])]
        | cons e r3 =>
          simp only [splitAux]
          rw [if_neg (by simp [hc])]
    rw [hstep, ih (fun x hx => h x (List.mem_cons_of_mem c hx)) (c :: acc)]
    simp

/-- Splitting `x ++ '\n' ++ tail` with break-free `x` and nonempty `tail`
emits `x` and continues on `tail`. -/
theorem splitAux_append (x : List Char) (hx : ∀ ch ∈ x, isLineBreak ch = false)
    (tail : List Char) (ht : tail ≠ []) :
    ∀ acc, splitAux (x ++ '\n' :: tail) acc = (acc.reverse ++ x) :: splitAux tail [] := by
  induction x with
  | nil =>
    intro acc
    cases tail with
    | nil => exact absurd rfl ht
    | cons d r2 =>
      cases r2 with
      | nil =>
        simp only [List.nil_append, splitAux]
        rw [if_pos (by decide), if_neg (fun hcon => absurd hcon.1 (by decide))]
        simp
      | cons e r3 =>
        simp only [List.nil_append, splitAux]
        rw [if_pos (by decide), if_neg (fun hcon => absurd hcon.1 (by decide))]
        simp
  | cons c x2 ih =>
    intro acc
    have hc : isLineBreak c = false := hx c (List.mem_cons_self c x2)
    have hstep : splitAux ((c :: x2) ++ '\n' :: tail) acc =
        splitAux (x2 ++ '\n' :: tail) (c :: acc) := by
      cases hx2 : x2 ++ '\n' :: tail with
      | nil => simp at hx2
      | cons d r2 =>
        rw [List.cons_append, hx2]
        cases r2 with
        | nil =>
          simp only [splitAux]
          rw [if_neg (by simp [hc])]
        | cons e r3 =>
          simp only [splitAux]
          rw [if_neg (by simp [hc])]
    rw [hstep, ih (fun z hz => hx z (List.mem_cons_of_mem c hz)) (c :: acc)]
    simp

/-- On a nonempty text the splitter is `splitAux` with an empty accumulator. -/
theorem splitlines_eq_splitAux (cs : List Char) (h : cs ≠ []) :
    splitlines cs = splitAux cs [] := by
  cases cs with
  | nil => exact absurd rfl h
  | cons c rest => rfl

/-- Joining with newlines is nonempty when the line list is nonempty and its
last line is nonempty. -/
theorem joinNL_ne_nil (ls : List (List Char)) (h0 : ls ≠ []) (h2 : ls.getLast? ≠ some []) :
    joinNL ls ≠ [] := by
  cases ls with
  | nil => exact absurd rfl h0
  | cons x rest =>
    cases rest with
    | nil =>
      simp only [joinNL]
      intro hx
      exact h2 (by rw [hx]; rfl)
    | cons y rest2 =>
      simp only [joinNL]
      intro hx
      rcases List.append_eq_nil.mp hx with ⟨_, h4⟩
      cases h4

/-- Splitting the newline join of a fitting line list recovers the list:
the lines must be break-free and the last line nonempty (Python's
`splitlines` drops a trailing empty line). -/
theorem splitlines_joinNL (ls : List (List Char)) (h0 : ls ≠ [])
    (h1 : ∀ l ∈ ls, ∀ ch ∈ l, isLineBreak ch = false) (h2 : ls.getLast? ≠ some []) :
    splitlines (joinNL ls) = ls := by
  induction ls with
  | nil => exact absurd rfl h0
  | cons x rest ih =>
    cases rest with
    | nil =>
      simp only [joinNL]
      have hxne : x ≠ [] := by
        intro hx
        exact h2 (by rw [hx]; rfl)
      rw [splitlines_eq_splitAux x hxne]
      rw [splitAux_no_break x (h1 x (List.mem_cons_self x [])) []]
      simp
    | cons y rest2 =>
      have htail_last : (y :: rest2).getLast? ≠ some [] := by
        intro hcon
        apply h2
        rw [List.getLast?_cons_cons]
        exact hcon
      have hjoin_ne : joinNL (y :: rest2) ≠ [] :=
        joinNL_ne_nil (y :: rest2) (by simp) htail_last
      have hjx : joinNL (x :: y :: rest2) = x ++ '\n' :: joinNL (y :: rest2) := rfl
      rw [hjx]
      rw [splitlines_eq_splitAux _ (by
        intro hc
        rcases List.append_eq_nil.mp hc with ⟨_, h4⟩
        cases h4)]
      rw [splitAux_append x (h1 x (List.mem_cons_self x (y :: rest2))) _ hjoin_ne []]
      simp only [List.reverse_nil, List.nil_append]
      rw [← splitlines_eq_splitAux _ hjoin_ne]
      rw [ih (by simp) (fun l hl => h1 l (List.mem_cons_of_mem x hl)) htail_last]

/-- Dropping a prefix twice drops it once. -/
theorem dropWhile_dropWhile (p : Char → Bool) (l : List Char) :
    (l.dropWhile p).dropWhile p = l.dropWhile p := by
  induction l with
  | nil => rfl
  | cons c rest ih =>
    by_cases hc : p c = true
    · rw [List.dropWhile_cons_of_pos hc]
      exact ih
    · rw [List.dropWhile_cons_of_neg hc]
      rw [List.dropWhile_cons_of_neg hc]

/-- Right-stripping is idempotent. -/
theorem rstripL_idem (l : List Char) : rstripL (rstripL l) = rstripL l := by
  unfold rstripL
  rw [List.reverse_reverse]
  rw [dropWhile_dropWhile]

/-- Stripping after a right-strip is plain stripping. -/
theorem stripL_rstripL (l : List Char) : stripL (rstripL l) = stripL l := by
  unfold stripL
  rw [show rstripL (rstripL l) = rstripL l from rstripL_idem l]

/-- Right-stripping does not change blankness. -/
theorem isBlankL_rstripL (l : List Char) : isBlankL (rstripL l) = isBlankL l := by
  unfold isBlankL
  rw [stripL_rstripL]

/-- Characters of the right-stripped line come from the line. -/
theorem mem_rstripL {c : Char} {l : List Char} (h : c ∈ rstripL l) : c ∈ l := by
  unfold rstripL at h
  rw [List.mem_reverse] at h
  exact List.mem_reverse.mp ((List.dropWhile_sublist _).mem h)

/-- A nonblank line right-strips to a nonempty line. -/
theorem rstripL_ne_nil {l : List Char} (h : isBlankL l = false) : rstripL l ≠ [] := by
  intro hnil
  unfold isBlankL at h
  rw [show stripL l = lstripL (rstripL l) from rfl, hnil] at h
  cases h

/-- Right-stripping keeps a line break-free. -/
theorem rstripL_break_free {l : List Char} (h : ∀ ch ∈ l, isLineBreak ch = false) :
    ∀ ch ∈ rstripL l, isLineBreak ch = false :=
  fun ch hc => h ch (mem_rstripL hc)

/-- After a skip-tracking pass with `prevBlank = true`, the head of the
result is not blank. -/
theorem collapseBlankGo_head_nonblank (ls : List (List Char)) :
    ∀ x, (GenericProcessor.collapseBlankGo true ls).head? = some x → isBlankL x = false := by
  induction ls with
  | nil => intro x hx; cases hx
  | cons l ls ih =>
    intro x hx
    simp only [GenericProcessor.collapseBlankGo] at hx
    by_cases hbl : isBlankL l = true
    · rw [if_pos (by rw [hbl]; rfl)] at hx
      exact ih x hx
    · rw [if_neg (by rw [Bool.not_eq_true] at hbl; rw [hbl]; simp)] at hx
      cases hx
      rw [Bool.not_eq_true] at hbl
      exact hbl

/-- The blank-collapse output never has two consecutive blank lines. -/
theorem collapseBlankGo_chain (ls : List (List Char)) :
    ∀ b, List.Chain' (fun a c => isBlankL a = false ∨ isBlankL c = false)
      (GenericProcessor.collapseBlankGo b ls) := by
  induction ls with
  | nil => intro b; simp [GenericProcessor.collapseBlankGo]
  | cons l ls ih =>
    intro b
    simp only [GenericProcessor.collapseBlankGo]
    by_cases hcond : (isBlankL l && b) = true
    · rw [if_pos hcond]
      exact ih b
    · rw [if_neg hcond]
      rw [List.chain'_cons']
      refine ⟨?_, ih (isBlankL l)⟩
      intro y hy
      by_cases hbl : isBlankL l = true
      · rw [hbl] at hy
        exact Or.inr (collapseBlankGo_head_nonblank ls y hy)
      · rw [Bool.not_eq_true] at hbl
        exact Or.inl hbl

/-- A list without consecutive blank lines (whose head is nonblank when the
carried flag is set) is a fixed point of the blank-collapse pass. -/
theorem collapseBlankGo_fixpoint (ls : List (List Char)) :
    ∀ b, List.Chain' (fun a c => isBlankL a = false ∨ isBlankL c = false) ls →
      (b = true → ∀ x, ls.head? = some x → isBlankL x = false) →
      GenericProcessor.collapseBlankGo b ls = ls := by
  induction ls with
  | nil => intro b _ _; rfl
  | cons l ls ih =>
    intro b hch hb
    simp only [GenericProcessor.collapseBlankGo]
    have hcond : (isBlankL l && b) = false := by
      cases b with
      | false => simp
      | true =>
        rw [hb rfl l rfl]
        rfl
    rw [if_neg (by rw [hcond]; simp)]
    congr 1
    apply ih (isBlankL l) (List.chain'_cons'.mp hch).2
    intro hbi x hx
    have := (List.chain'_cons'.mp hch).1 x hx
    rcases this with h1 | h1
    · rw [hbi] at h1
      cases h1
    · exact h1

/-- Lines of the blank-collapse output come from the input. -/
theorem collapseBlankGo_mem (ls : List (List Char)) :
    ∀ b x, x ∈ GenericProcessor.collapseBlankGo b ls → x ∈ ls := by
  induction ls with
  | nil => intro b x hx; simp [GenericProcessor.collapseBlankGo] at hx
  | cons l ls ih =>
    intro b x hx
    simp only [GenericProcessor.collapseBlankGo] at hx
    by_cases hcond : (isBlankL l && b) = true
    · rw [if_pos hcond] at hx
      exact List.mem_cons_of_mem l (ih b x hx)
    · rw [if_neg hcond] at hx
      rcases List.mem_cons.mp hx with h1 | h1
      · exact h1 ▸ List.mem_cons_self l ls
      · exact List.mem_cons_of_mem l (ih (isBlankL l) x h1)

/-- The blank-collapse pass keeps a nonblank last line last. -/
theorem collapseBlankGo_getLast (ls : List (List Char)) :
    ∀ b x, ls.getLast? = some x → isBlankL x = false →
      (GenericProcessor.collapseBlankGo b ls).getLast? = some x := by
  induction ls with
  | nil => intro b x hx; cases hx
  | cons l ls ih =>
    intro b x hx hnb
    cases ls with
    | nil =>
      have hxl : x = l := by
        rw [show ([l] : List (List Char)).getLast? = some l from rfl] at hx
        injection hx with h2
        exact h2.symm
      subst hxl
      simp only [GenericProcessor.collapseBlankGo]
      rw [if_neg (by rw [hnb]; simp)]
      rfl
    | cons m ms =>
      rw [List.getLast?_cons_cons] at hx
      rw [GenericProcessor.collapseBlankGo]
      by_cases hcond : (isBlankL l && b) = true
      · rw [if_pos hcond]
        exact ih b x hx hnb
      · rw [if_neg hcond]
        have hres := ih (isBlankL l) x hx hnb
        cases hgo : GenericProcessor.collapseBlankGo (isBlankL l) (m :: ms) with
        | nil =>
          rw [hgo] at hres
          cases hres
        | cons a as =>
          rw [hgo] at hres
          rw [List.getLast?_cons_cons]
          exact hres

/-- A pointwise-identity map is the identity. -/
theorem map_self {f : List Char → List Char} {l : List (List Char)}
    (h : ∀ x ∈ l, f x = x) : l.map f = l := by
  induction l with
  | nil => rfl
  | cons a as ih =>
    rw [List.map_cons, h a (List.mem_cons_self a as),
      ih (fun x hx => h x (List.mem_cons_of_mem a hx))]

/-- The last element of a mapped list is the image of the last element. -/
theorem getLast?_map (f : List Char → List Char) (l : List (List Char)) :
    (l.map f).getLast? = l.getLast?.map f := by
  induction l with
  | nil => rfl
  | cons a as ih =>
    cases as with
    | nil => rfl
    | cons b bs =>
      rw [List.map_cons, List.map_cons, List.getLast?_cons_cons, List.getLast?_cons_cons]
      rw [List.map_cons] at ih
      exact ih

/-- Claim C6, corrected: the light-clean pass is idempotent on every text
that contains no ESC character and whose last line is not blank.  (Without
those restrictions idempotence fails, see the counterexample: a second pass
drops a trailing blank line, and may strip escape sequences reassembled by
the first pass.) -/
theorem C6_clean_idempotent (t : List Char) (hEsc : ∀ c ∈ t, c ≠ '\x1b')
    (hLast : lastLineOk t = true) :
    GenericProcessor.clean (GenericProcessor.clean t) = GenericProcessor.clean t := by
  cases ht : splitlines t with
  | nil =>
    have ht0 : t = [] := splitlines_eq_nil ht
    subst ht0
    rfl
  | cons l0 ls0 =>
    have hlineEsc : ∀ l ∈ splitlines t, ∀ c ∈ l, c ≠ '\x1b' := by
      intro l hl c hc
      exact hEsc c (splitlines_chars hl c hc)
    have hansi : GenericProcessor.strip_ansi (splitlines t) = splitlines t :=
      map_self (fun l hl => ansiStrip_id l (hlineEsc l hl))
    obtain ⟨x, hx, hxnb⟩ : ∃ x, (splitlines t).getLast? = some x ∧ isBlankL x = false := by
      unfold lastLineOk at hLast
      cases hgl : (splitlines t).getLast? with
      | none =>
        rw [ht] at hgl
        rcases List.getLast?_eq_none_iff.mp hgl
      | some y =>
        refine ⟨y, rfl, ?_⟩
        rw [hgl] at hLast
        change (!isBlankL y) = true at hLast
        cases hb : isBlankL y with
        | false => rfl
        | true =>
          rw [hb] at hLast
          simp at hLast
    have hCchain := collapseBlankGo_chain (splitlines t) false
    have hClast : (GenericProcessor.collapse_blank_lines (splitlines t)).getLast? = some x :=
      collapseBlankGo_getLast (splitlines t) false x hx hxnb
    have hCmem : ∀ y ∈ GenericProcessor.collapse_blank_lines (splitlines t),
        y ∈ splitlines t :=
      fun y hy => collapseBlankGo_mem (splitlines t) false y hy
    have hclean : GenericProcessor.clean t =
        joinNL (GenericProcessor.strip_trailing_whitespace
          (GenericProcessor.collapse_blank_lines (splitlines t))) := by
      unfold GenericProcessor.clean
      rw [hansi]
    have hL1last : (GenericProcessor.strip_trailing_whitespace
        (GenericProcessor.collapse_blank_lines (splitlines t))).getLast? =
        some (rstripL x) := by
      unfold GenericProcessor.strip_trailing_whitespace
      rw [getLast?_map, hClast]
      rfl
    have hL1lastne : rstripL x ≠ [] := rstripL_ne_nil hxnb
    have hL1ne : GenericProcessor.strip_trailing_whitespace
        (GenericProcessor.collapse_blank_lines (splitlines t)) ≠ [] := by
      intro hnil
      rw [hnil] at hL1last
      cases hL1last
    have hL1bf : ∀ l ∈ GenericProcessor.strip_trailing_whitespace
        (GenericProcessor.collapse_blank_lines (splitlines t)),
        ∀ ch ∈ l, isLineBreak ch = false := by
      intro l hl
      obtain ⟨y, hy, rfl⟩ := List.mem_map.mp hl
      exact rstripL_break_free (splitlines_break_free (hCmem y hy))
    have hsplit : splitlines (joinNL (GenericProcessor.strip_trailing_whitespace
        (GenericProcessor.collapse_blank_lines (splitlines t)))) =
        GenericProcessor.strip_trailing_whitespace
          (GenericProcessor.collapse_blank_lines (splitlines t)) := by
      apply splitlines_joinNL _ hL1ne hL1bf
      rw [hL1last]
      intro hcon
      injection hcon with h2
      exact hL1lastne h2
    have hL1esc : ∀ l ∈ GenericProcessor.strip_trailing_whitespace
        (GenericProcessor.collapse_blank_lines (splitlines t)), ∀ c ∈ l, c ≠ '\x1b' := by
      intro l hl c hc
      obtain ⟨y, hy, rfl⟩ := List.mem_map.mp hl
      exact hlineEsc y (hCmem y hy) c (mem_rstripL hc)
    have hansi2 : GenericProcessor.strip_ansi (GenericProcessor.strip_trailing_whitespace
        (GenericProcessor.collapse_blank_lines (splitlines t))) =
        GenericProcessor.strip_trailing_whitespace
          (GenericProcessor.collapse_blank_lines (splitlines t)) :=
      map_self (fun l hl => ansiStrip_id l (hL1esc l hl))
    have hL1chain : List.Chain' (fun a c => isBlankL a = false ∨ isBlankL c = false)
        (GenericProcessor.strip_trailing_whitespace
          (GenericProcessor.collapse_blank_lines (splitlines t))) := by
      unfold GenericProcessor.strip_trailing_whitespace
      rw [List.chain'_map]
      refine List.Chain'.imp ?_ hCchain
      intro a c hac
      rw [isBlankL_rstripL, isBlankL_rstripL]
      exact hac
    have hcb2 : GenericProcessor.collapse_blank_lines
        (GenericProcessor.strip_trailing_whitespace
          (GenericProcessor.collapse_blank_lines (splitlines t))) =
        GenericProcessor.strip_trailing_whitespace
          (GenericProcessor.collapse_blank_lines (splitlines t)) :=
      collapseBlankGo_fixpoint _ false hL1chain (by intro hb; cases hb)
    have hst2 : GenericProcessor.strip_trailing_whitespace
        (GenericProcessor.strip_trailing_whitespace
          (GenericProcessor.collapse_blank_lines (splitlines t))) =
        GenericProcessor.strip_trailing_whitespace
          (GenericProcessor.collapse_blank_lines (splitlines t)) := by
      unfold GenericProcessor.strip_trailing_whitespace
      rw [List.map_map]
      exact List.map_congr_left (fun a _ => rstripL_idem a)
    rw [hclean]
    unfold GenericProcessor.clean
    rw [hsplit, hansi2, hcb2, hst2]

/-- Witness for C6's restricted idempotence at a text with trailing spaces
and repeated blank lines but no ESC and a nonblank last line. -/
theorem C6_witness :
    (∀ c ∈ ("hello  \n\n\nworld").data, c ≠ '\x1b') ∧
    lastLineOk (("hello  \n\n\nworld").data) = true ∧
    GenericProcessor.clean (GenericProcessor.clean (("hello  \n\n\nworld").data)) =
      GenericProcessor.clean (("hello  \n\n\nworld").data) :=
  ⟨by decide, by decide, C6_clean_idempotent (("hello  \n\n\nworld").data) (by decide)
    (by decide)⟩

/-- Counterexample to claim C6 as stated: the light clean is not idempotent
for all text inputs — a trailing blank line survives one pass but not two,
and an ANSI fragment reassembled by the first strip is removed by the
second. -/
theorem C6_counterexample :
    GenericProcessor.clean (GenericProcessor.clean (("a\n\n").data)) ≠
      GenericProcessor.clean (("a\n\n").data) ∧
    GenericProcessor.clean (GenericProcessor.clean (("\x1b\x1b[31m[31m").data)) ≠
      GenericProcessor.clean (("\x1b\x1b[31m[31m").data) :=
  ⟨by decide, by decide⟩

set_option maxRecDepth 100000 in
/-- Counterexample to claim C5 as stated: on `tfInput` the destruction block
keeps its change-marked attribute line (`- size = 100 -> null`), not only
the header, while the unmarked attribute (`tags = \x7b\x7d`) is dropped. -/
theorem C5_counterexample :
    TerraformProcessor.process (("terraform plan").data) tfInput = joinNL tfExpected ∧
    tfDestroyAttr ∈ tfExpected ∧
    tfExpected.headD [] = ("  # aws_instance.web will be destroyed").data ∧
    ("      tags = \x7b\x7d").data ∉ tfExpected :=
  ⟨by rfl, by decide, rfl, by decide⟩

end TokenSaver
